import Mathlib

/-!
Verification of the segmented media delivery engine of this repository
against its natural-language specification.

The development shallowly embeds the relevant Python code:

* `Splitter` embeds `src/splitter.py` (`split_video`,
  `get_video_duration`, `get_video_stream_metadata`).  Subprocess
  invocations (`ffmpeg` / `ffprobe`) and the filesystem are modelled by an
  explicit oracle environment `Splitter.Env`; the per-invocation effects
  are recorded in an event trace.  Python's unbounded recursion is
  modelled with explicit fuel (`none` = fuel exhausted).
* `Server` embeds the range-proxy part of `src/server.py`
  (`parse_range_header`, `get_file_info_cached`, `get_adaptive_chunk_size`,
  `clean_cache_if_needed`, `stream_video`, and the dispatch prefix of
  `stream_concat`).  The Telegram API and `hashlib` ETag computation are
  oracle functions in `Server.SEnv`.
* `Manifest` models the per-asset locking protocol of the HLS manifest
  generator (`generate_hls_for_video`), whose definition is not present
  under `src/` (only its call sites are); it is modelled from the spec.

Machine integers do not occur (Python ints are unbounded); times and
durations are rationals, byte sizes are naturals.
-/

deriving instance DecidableEq for Except

namespace Splitter

/-- Python truthiness / `str.strip()` helpers shared by the embedding.
`pyWhitespace` is the ASCII whitespace set stripped by `str.strip()`. -/
def pyWhitespace (c : Char) : Bool :=
  c = ' ' || c = '\t' || c = '\n' || c = '\r' || c = '\x0b' || c = '\x0c'

/-- Embeds Python `s.strip()`. -/
def pyStrip (s : String) : String :=
  ⟨((s.toList.dropWhile pyWhitespace).reverse.dropWhile pyWhitespace).reverse⟩

/-- Index of the last occurrence of `c` in the list, if any. -/
def lastIdxOf (c : Char) : List Char → Option Nat
  | [] => none
  | x :: xs =>
    match lastIdxOf c xs with
    | some i => some (i + 1)
    | none => if x = c then some 0 else none

/-- Embeds `os.path.splitext` for plain file names (no directory
separators): split at the last dot, unless every character before it is a
dot (leading-dot names such as `".bashrc"` keep an empty extension). -/
def splitext (p : String) : String × String :=
  let l := p.toList
  match lastIdxOf '.' l with
  | none => (p, "")
  | some i =>
    if (l.take i).all (fun c => c = '.') then (p, "")
    else (⟨l.take i⟩, ⟨l.drop i⟩)

/-- The output name `f"{base_name}_part{i+1}{ext}"` built by `split_video`
for part index `i` (0-based). -/
def partName (file_path : String) (i : Nat) : String :=
  (splitext file_path).1 ++ "_part" ++ toString (i + 1) ++ (splitext file_path).2

/-- Video-stream metadata returned by `get_video_stream_metadata`
(fields `sample_aspect_ratio`, `display_aspect_ratio`, `tags.rotate` of the
first video stream; each may be absent/`None`). -/
structure StreamMeta where
  sampleAspect : Option String
  displayAspect : Option String
  rotateTag : Option String
deriving DecidableEq, Repr

/-- The decision-relevant content of one ffmpeg invocation built by
`split_video`: either the stream-copy slice `cmd_copy`, or the re-encode
slice `cmd_transcode` with its video filter, optional `-aspect` value and
optional `rotate` stream-metadata value. -/
inductive FfmpegCmd
  | copy (input : String) (start dur : ℚ) (output : String)
  | transcode (input : String) (start dur : ℚ) (vf : String)
      (aspect : Option String) (rotate : Option String) (output : String)
deriving DecidableEq, Repr

/-- One observable external effect of `split_video`. -/
inductive Event
  | probeDuration (file : String)
  | probeMeta (file : String)
  | runCmd (c : FfmpegCmd)
deriving DecidableEq, Repr

/-- Oracle environment for `split_video`: the filesystem
(`getsize f = none` models `os.path.exists` false / `os.path.getsize`
raising `OSError`) and the external prober/encoder binary.  Errors carry
the subprocess's decoded stderr text. -/
structure Env where
  getsize : String → Option Nat
  duration : String → Except String ℚ
  metadata : String → Option StreamMeta
  runCmd : FfmpegCmd → Except String Unit

/-- Typed errors raised by the embedded `split_video`
(`FileNotFoundError`, `Exception("ffprobe failed: ...")`,
`Exception("ffmpeg split failed: ...")`).  The string fields hold the
subprocess's diagnostic (stderr) text. -/
inductive SplitError
  | fileNotFound (path : String)
  | ffprobeFailed (stderr : String)
  | ffmpegFailed (stderr : String)
deriving DecidableEq, Repr

/-- `"scale=trunc(iw/2)*2:trunc(ih/2)*2"`, the default even-dimension
normalizing video filter of `split_video`. -/
def defaultScaleFilter : String := "scale=trunc(iw/2)*2:trunc(ih/2)*2"

/-- The SAR-correcting video filter chosen when the source has a
non-trivial sample aspect ratio. -/
def sarScaleFilter : String := "scale=trunc(iw*sar/2)*2:trunc(ih/2)*2,setsar=1"

/-- Builds `cmd_transcode` from the `stream_meta` dict in scope at the
current loop iteration (lines 152–182 of `splitter.py`); `meta = none`
models the empty dict `{}`. -/
def cmdTranscode (file_path : String) (start dur : ℚ) (meta : Option StreamMeta)
    (output : String) : FfmpegCmd :=
  let m := meta.getD ⟨none, none, none⟩
  let sar := pyStrip (m.sampleAspect.getD "")
  let dar := pyStrip (m.displayAspect.getD "")
  let vf :=
    if sar ≠ "" ∧ sar ≠ "1:1" ∧ sar ≠ "1" ∧ sar ≠ "0:1" ∧ sar ≠ "N/A" then
      sarScaleFilter
    else defaultScaleFilter
  let aspect := if dar ≠ "" ∧ dar ≠ "0:1" ∧ dar ≠ "N:A" then some dar else none
  let rot :=
    match m.rotateTag with
    | some r => if r ≠ "" then some r else none
    | none => none
  .transcode file_path start dur vf aspect rot output

/-- One iteration of the slicing loop of `split_video` (lines 131–260):
run `cmd_copy` (or `cmd_transcode` when `transcode` was requested); on a
copy failure, fetch stream metadata if the `stream_meta` dict is still
empty and retry the *already built* `cmd_transcode`.  Returns the event
trace, the `stream_meta` value after the iteration, and the outcome. -/
def runPart (env : Env) (transcode : Bool) (file_path : String) (start dur : ℚ)
    (meta0 : Option StreamMeta) (output : String) :
    List Event × Option StreamMeta × Except SplitError Unit :=
  if transcode then
    let c := cmdTranscode file_path start dur meta0 output
    ([.runCmd c], meta0, (env.runCmd c).mapError .ffmpegFailed)
  else
    let cCopy := FfmpegCmd.copy file_path start dur output
    match env.runCmd cCopy with
    | .ok _ => ([.runCmd cCopy], meta0, .ok ())
    | .error _ =>
      let cT := cmdTranscode file_path start dur meta0 output
      let fetch : List Event × Option StreamMeta :=
        match meta0 with
        | some m => ([], some m)
        | none => ([.probeMeta file_path], env.metadata file_path)
      match env.runCmd cT with
      | .ok _ => ([.runCmd cCopy] ++ fetch.1 ++ [.runCmd cT], fetch.2, .ok ())
      | .error e2 =>
        ([.runCmd cCopy] ++ fetch.1 ++ [.runCmd cT], fetch.2,
          .error (.ffmpegFailed e2))

/-- The slicing loop of `split_video` over the part indices, threading the
mutable `stream_meta` dict and collecting `output_parts`. -/
def runPartsAux (env : Env) (transcode : Bool) (file_path : String)
    (part_duration : ℚ) :
    List Nat → Option StreamMeta → List Event × Except SplitError (List String)
  | [], _ => ([], .ok [])
  | i :: rest, meta =>
    let output := partName file_path i
    let r := runPart env transcode file_path (i * part_duration) part_duration
      meta output
    match r.2.2 with
    | .error e => (r.1, .error e)
    | .ok _ =>
      let rec' := runPartsAux env transcode file_path part_duration rest r.2.1
      (r.1 ++ rec'.1, rec'.2.map (fun outs => output :: outs))

/-- Maps over the success value inside `Option (Except ε α)`. -/
def omap (f : List String → List String)
    (r : Option (Except SplitError (List String))) :
    Option (Except SplitError (List String)) :=
  r.map (fun ex => ex.map f)

/-- The post-split verification loop of `split_video` (lines 262–281),
parameterized by the recursive re-split `splitAgain` (which the source
calls with `transcode=False`): parts whose size is unreadable (`OSError`)
or within budget are kept, over-budget parts are re-split and replaced by
their sub-parts.  (`os.remove` of a replaced parent has no further
observable effect: a removed part is never read again and never appears in
the result.) -/
def verifyParts
    (splitAgain : String → List Event × Option (Except SplitError (List String)))
    (env : Env) (budget : Nat) :
    List String → List Event × Option (Except SplitError (List String))
  | [] => ([], some (.ok []))
  | p :: rest =>
    match env.getsize p with
    | none =>
      let r := verifyParts splitAgain env budget rest
      (r.1, omap (fun l => p :: l) r.2)
    | some part_size =>
      if part_size ≤ budget then
        let r := verifyParts splitAgain env budget rest
        (r.1, omap (fun l => p :: l) r.2)
      else
        let r1 := splitAgain p
        match r1.2 with
        | none => (r1.1, none)
        | some (.error e) => (r1.1, some (.error e))
        | some (.ok subs) =>
          let r2 := verifyParts splitAgain env budget rest
          (r1.1 ++ r2.1, omap (fun l => subs ++ l) r2.2)

/-- Fuel-indexed embedding of `split_video(file_path, max_size_bytes,
transcode)`.  Returns the event trace together with `none` when fuel runs
out (modelling divergence of the unbounded Python recursion), or the
result: the list of part paths, or a typed error.  `num_parts =
math.ceil(current_size / max_size_bytes)` is modelled by exact natural
ceiling division. -/
def splitFuel : Nat → Env → Nat → Bool → String →
    List Event × Option (Except SplitError (List String))
  | 0, _, _, _, _ => ([], none)
  | fuel + 1, env, max_size_bytes, transcode, file_path =>
    match env.getsize file_path with
    | none => ([], some (.error (.fileNotFound file_path)))
    | some current_size =>
      if current_size ≤ max_size_bytes then ([], some (.ok [file_path]))
      else
        match env.duration file_path with
        | .error e =>
          ([.probeDuration file_path], some (.error (.ffprobeFailed e)))
        | .ok duration =>
          let num_parts := (current_size + max_size_bytes - 1) / max_size_bytes
          let part_duration := duration / num_parts
          let meta0 : Option StreamMeta :=
            if transcode then env.metadata file_path else none
          let evMeta0 : List Event :=
            if transcode then [.probeMeta file_path] else []
          let prod := runPartsAux env transcode file_path part_duration
            (List.range num_parts) meta0
          match prod.2 with
          | .error e =>
            ([.probeDuration file_path] ++ evMeta0 ++ prod.1,
              some (.error e))
          | .ok output_parts =>
            let ver := verifyParts (splitFuel fuel env max_size_bytes false)
              env max_size_bytes output_parts
            ([.probeDuration file_path] ++ evMeta0 ++ prod.1 ++ ver.1, ver.2)

end Splitter

namespace Server

/-- `CACHE_TTL = 3600` seconds (1 hour), compared against `time.time()`
differences, hence a rational here. -/
def CACHE_TTL : ℚ := 3600

/-- `MAX_CACHE_SIZE = 1000`. -/
def MAX_CACHE_SIZE : Nat := 1000

/-- Adaptive chunk size constants of `server.py`. -/
def CHUNK_SIZE_SMALL : Nat := 32768

/-- 64KB default balanced chunk size. -/
def CHUNK_SIZE_MEDIUM : Nat := 65536

/-- 128KB chunk size for fast networks. -/
def CHUNK_SIZE_LARGE : Nat := 131072

/-- Python truthiness of an optional string (`None` and `""` are falsy). -/
def strTruthy : Option String → Bool
  | none => false
  | some s => s ≠ ""

/-- Python truthiness of an optional int (`None` and `0` are falsy). -/
def natTruthy : Option Nat → Bool
  | none => false
  | some n => n ≠ 0

/-- Python `a or b` on optional strings. -/
def pyOr (a b : Option String) : Option String :=
  if strTruthy a then a else b

/-- Embeds `get_adaptive_chunk_size(connection_speed)`. -/
def get_adaptive_chunk_size (connection_speed : Option String) : Nat :=
  if ¬ strTruthy connection_speed then CHUNK_SIZE_MEDIUM
  else
    let speed := (connection_speed.getD "").toLower
    if speed = "slow-2g" ∨ speed = "2g" then CHUNK_SIZE_SMALL
    else if speed = "3g" then CHUNK_SIZE_MEDIUM
    else if speed = "4g" ∨ speed = "5g" then CHUNK_SIZE_LARGE
    else CHUNK_SIZE_MEDIUM

/-- One `file_info_cache` entry: `{"url": ..., "size": ..., "timestamp": ...}`. -/
structure CacheEntry where
  url : String
  size : Option Nat
  timestamp : ℚ
deriving DecidableEq, Repr

/-- The `file_info_cache` dict: an insertion-ordered association list with
unique keys, as a Python dict. -/
abbrev Cache : Type := List (String × CacheEntry)

/-- Python dict lookup (`cache[k]` under `k in cache`). -/
def dictGet : Cache → String → Option CacheEntry
  | [], _ => none
  | (k', v') :: rest, k => if k' = k then some v' else dictGet rest k

/-- Python dict assignment `cache[k] = v`: replaces in place when the key
exists, otherwise appends (insertion order). -/
def dictSet : Cache → String → CacheEntry → Cache
  | [], k, v => [(k, v)]
  | (k', v') :: rest, k, v =>
    if k' = k then (k, v) :: rest else (k', v') :: dictSet rest k v

/-- Stable insertion into a list sorted by timestamp descending, matching
Python's stable `sorted(..., key=timestamp, reverse=True)`. -/
def insertDescTs (x : String × CacheEntry) : Cache → Cache
  | [] => [x]
  | y :: ys =>
    if y.2.timestamp ≤ x.2.timestamp then x :: y :: ys
    else y :: insertDescTs x ys

/-- Stable sort by timestamp descending. -/
def sortDescTs : Cache → Cache
  | [] => []
  | x :: xs => insertDescTs x (sortDescTs xs)

/-- Embeds `clean_cache_if_needed()`: when more than `MAX_CACHE_SIZE`
entries exist, keep the `MAX_CACHE_SIZE` most recently inserted ones
(sort by timestamp descending, truncate). -/
def clean_cache_if_needed (c : Cache) : Cache :=
  if c.length > MAX_CACHE_SIZE then (sortDescTs c).take MAX_CACHE_SIZE else c

/-- Response of the Telegram `getFile` API as consumed by
`get_file_info_cached`: either `ok` with `result.file_path` and optional
`result.file_size`, or a failure with an optional `description`. -/
inductive TgResult
  | ok (file_path : String) (file_size : Option Nat)
  | notOk (description : Option String)
deriving DecidableEq, Repr

/-- Oracle environment for the server embedding: the
`TELEGRAM_BOT_TOKEN` environment variable, the Telegram `getFile` API, and
the ETag fingerprint `hashlib.sha256(file_id).hexdigest()[:32]` treated as
an opaque pure function. -/
structure SEnv where
  token : Option String
  getFile : String → TgResult
  etag : String → String

/-- List-infix test used for Python's `needle in haystack` on strings. -/
def isPrefixL : List Char → List Char → Bool
  | [], _ => true
  | _ :: _, [] => false
  | a :: as, b :: bs => a = b && isPrefixL as bs

/-- Python `needle in haystack` (substring containment). -/
def strHas (haystack needle : String) : Bool :=
  let rec go : List Char → Bool
    | [] => needle.toList.isEmpty
    | x :: xs => isPrefixL needle.toList (x :: xs) || go xs
  go haystack.toList

/-- The download URL `f"https://api.telegram.org/file/bot{token}/{file_path}"`. -/
def downloadUrl (token file_path : String) : String :=
  "https://api.telegram.org/file/bot" ++ token ++ "/" ++ file_path

/-- Embeds `get_file_info_cached(file_id)` over an explicit cache state
and current time.  The result is `(outcome, new cache, networkCalled)`
where the outcome is the `(download_url, file_size)` pair or the
`HTTPException` status code raised, and `networkCalled` records whether
the Telegram `getFile` resolution API was invoked. -/
def get_file_info_cached (env : SEnv) (cache : Cache) (now : ℚ)
    (file_id : Option String) :
    Except Nat (String × Option Nat) × Cache × Bool :=
  let fid := match file_id with
    | none => ""
    | some s => Splitter.pyStrip s
  if fid = "" then (.error 404, cache, false)
  else
    let fresh : Option CacheEntry :=
      match dictGet cache fid with
      | some cached => if now - cached.timestamp < CACHE_TTL then some cached else none
      | none => none
    match fresh with
    | some cached => (.ok (cached.url, cached.size), cache, false)
    | none =>
      match env.token with
      | none => (.error 500, cache, false)
      | some token =>
        if token = "" then (.error 500, cache, false)
        else
          match env.getFile fid with
          | .notOk description =>
            if strHas (description.getD "Unknown error").toLower "file is too big"
            then (.error 413, cache, true)
            else (.error 404, cache, true)
          | .ok file_path file_size =>
            let url := downloadUrl token file_path
            let cache' := clean_cache_if_needed
              (dictSet cache fid ⟨url, file_size, now⟩)
            (.ok (url, file_size), cache', true)

/-- Digit-list match of the regex `r"bytes=(\d+)-(\d*)"` under `re.match`
(anchored at the start, trailing text ignored): returns the two digit
groups. -/
def rangeRegexMatchL : List Char → Option (List Char × List Char)
  | 'b' :: 'y' :: 't' :: 'e' :: 's' :: '=' :: rest =>
    let d1 := rest.takeWhile Char.isDigit
    if d1.isEmpty then none
    else
      match rest.drop d1.length with
      | '-' :: r2 => some (d1, r2.takeWhile Char.isDigit)
      | _ => none
  | _ => none

/-- Numeric value of a digit group (Python `int(...)`). -/
def digitsVal (l : List Char) : Nat :=
  l.foldl (fun a c => a * 10 + (c.toNat - '0'.toNat)) 0

/-- Embeds `parse_range_header(range_header, file_size)`: `None` on an
absent/empty header or a non-matching form; parse `start`, default the end
to `file_size - 1`, reject `start ≥ file_size`, clamp the end to
`file_size - 1`, reject `start > end`. -/
def parse_range_header (range_header : Option String) (file_size : Int) :
    Option (Int × Int) :=
  match range_header with
  | none => none
  | some s =>
    if s = "" then none
    else
      match rangeRegexMatchL s.toList with
      | none => none
      | some (d1, d2) =>
        let start : Int := digitsVal d1
        let e : Int := if d2.isEmpty then file_size - 1 else digitsVal d2
        if start < 0 ∨ start ≥ file_size then none
        else
          let e := if e ≥ file_size then file_size - 1 else e
          if start > e then none else some (start, e)

/-- `generate_etag(file_id)` via the opaque hash oracle. -/
def generate_etag (env : SEnv) (file_id : String) : String :=
  env.etag file_id

/-- The upstream GET issued by a streaming response body: target URL and
the optional `Range` header sent to it. -/
structure UpstreamReq where
  url : String
  range : Option String
deriving DecidableEq, Repr

/-- The observable response of `stream_video`: status, the headers it
sets, the chunk size of its read loop, and the upstream request its body
generator performs (`none` for the body-less 304 response). -/
structure Resp where
  status : Nat
  etagHeader : Option String
  acceptRanges : Option String
  cacheControl : Option String
  connection : Option String
  keepAlive : Option String
  contentRange : Option String
  contentLength : Option String
  chunkSize : Option Nat
  upstream : Option UpstreamReq
deriving DecidableEq, Repr

/-- The bare `Response(status_code=304)`. -/
def resp304 : Resp :=
  ⟨304, none, none, none, none, none, none, none, none, none⟩

/-- Embeds `stream_video(file_id, range, if_none_match, request)` over an
explicit cache state.  `ect` and `downlink` are the client-hint request
headers.  Any exception (including the `HTTPException`s of
`get_file_info_cached`) is caught by the outer handler and re-raised as a
500, modelled as `.error 500`. -/
def stream_video (env : SEnv) (cache : Cache) (now : ℚ) (file_id : String)
    (range if_none_match ect downlink : Option String) :
    Except Nat Resp × Cache × Bool :=
  match get_file_info_cached env cache now (some file_id) with
  | (.error _, cache', net) => (.error 500, cache', net)
  | (.ok (download_url, file_size), cache', net) =>
    let etag := generate_etag env file_id
    if strTruthy if_none_match ∧ if_none_match = some etag then
      (.ok resp304, cache', net)
    else
      let connection_speed := pyOr ect downlink
      let chunk_size := get_adaptive_chunk_size connection_speed
      let range_tuple :=
        if strTruthy range ∧ natTruthy file_size then
          parse_range_header range (file_size.getD 0)
        else none
      match range_tuple with
      | some (start, e) =>
        if natTruthy file_size then
          let content_length := e - start + 1
          (.ok ⟨206, some etag, some "bytes", some "public, max-age=3600",
            some "keep-alive", some "timeout=60, max=100",
            some ("bytes " ++ toString start ++ "-" ++ toString e ++ "/" ++
              toString (file_size.getD 0)),
            some (toString content_length), some chunk_size,
            some ⟨download_url,
              some ("bytes=" ++ toString start ++ "-" ++ toString e)⟩⟩,
            cache', net)
        else
          (.ok ⟨200, some etag, some "bytes", some "public, max-age=3600",
            some "keep-alive", some "timeout=60, max=100", none, none,
            some chunk_size, some ⟨download_url, none⟩⟩, cache', net)
      | none =>
        (.ok ⟨200, some etag, some "bytes", some "public, max-age=3600",
          some "keep-alive", some "timeout=60, max=100", none,
          (if natTruthy file_size then some (toString (file_size.getD 0))
           else none),
          some chunk_size, some ⟨download_url, none⟩⟩, cache', net)

/-- One entry of the `metadata["parts"]` list of a video record. -/
structure VideoPart where
  part : Option Int
  file_id : Option String
deriving DecidableEq, Repr

/-- The video record metadata as used by `stream_concat`. -/
structure VideoMeta where
  parts : Option (List VideoPart)
deriving DecidableEq, Repr

/-- A video record as returned by `get_video_by_short_id`. -/
structure VideoRec where
  file_id : Option String
  metadata : Option VideoMeta
deriving DecidableEq, Repr

/-- `parts = (video.get("metadata") or {}).get("parts") or []`. -/
def normParts (v : VideoRec) : List VideoPart :=
  match v.metadata with
  | none => []
  | some m => m.parts.getD []

/-- Stable insertion for ascending sort by `p.get("part", 0)`. -/
def insertAscPart (x : VideoPart) : List VideoPart → List VideoPart
  | [] => [x]
  | y :: ys =>
    if x.part.getD 0 ≤ y.part.getD 0 then x :: y :: ys
    else y :: insertAscPart x ys

/-- `sorted(parts, key=lambda p: p.get("part", 0))` (stable ascending). -/
def sortByPartKey : List VideoPart → List VideoPart
  | [] => []
  | x :: xs => insertAscPart x (sortByPartKey xs)

/-- `file_ids`: the stripped, non-blank part file ids in sorted order. -/
def collectFileIds (parts : List VideoPart) : List String :=
  (sortByPartKey parts).foldr
    (fun p acc =>
      match p.file_id with
      | none => acc
      | some raw =>
        if raw = "" then acc
        else
          let cleaned := Splitter.pyStrip raw
          if cleaned = "" then acc else cleaned :: acc)
    []

/-- How `stream_concat` dispatches a request: raise an `HTTPException`,
delegate to the single-file proxy `stream_video(file_id)`, or run the
download-and-concatenate path over `file_ids`. -/
inductive ConcatAction
  | httpError (status : Nat)
  | delegate (file_id : String)
  | concat (file_ids : List String)
deriving DecidableEq, Repr

/-- Embeds the dispatch prefix of `stream_concat(short_id)` (lines
589–614 of `server.py`); the remainder of the concat path (downloads,
ffmpeg concat, streaming) is abstracted as `ConcatAction.concat` since the
claims only concern the dispatch. -/
def stream_concat (video : Option VideoRec) : ConcatAction :=
  match video with
  | none => .httpError 404
  | some v =>
    let parts := normParts v
    if parts.isEmpty then
      match v.file_id with
      | none => .httpError 404
      | some fid => if fid = "" then .httpError 404 else .delegate fid
    else
      let file_ids := collectFileIds parts
      if file_ids.isEmpty then .httpError 404 else .concat file_ids

end Server

namespace Manifest

/-- Modelled from the spec: `generate_hls_for_video` is referenced from
`server.py` (it is spawned with `asyncio.create_task`) but its definition
is not under `src/`; §3, §4.5 and §8 of the spec describe it.  Program
counter of one manifest request for a fixed asset id: `start` (about to
check the cache directory / acquire the per-asset lock), `locked` (holding
the lock), `done` (response sent). -/
inductive PC
  | start
  | locked
  | done
deriving DecidableEq, Fintype, Repr

/-- Modelled from the spec: the joint state of two concurrent manifest
requests `A` and `B` for the same asset — their program counters, the
per-asset lock holder (`some false` = A, `some true` = B), whether the
cache directory holds a completed manifest, which request ran a
generation pass, and each request's result (`some true` = served the
manifest from the cache directory). -/
structure Config where
  pcA : PC
  pcB : PC
  holder : Option Bool
  cached : Bool
  genA : Bool
  genB : Bool
  resA : Option Bool
  resB : Option Bool
deriving DecidableEq, Repr

/-- Modelled from the spec (§4.5): one cooperative step of request `w`
(`false` = A, `true` = B).  At `start`: a cached manifest is served
immediately and generation is skipped; otherwise the request blocks until
it can take the per-asset lock.  At `locked`: re-check the cache
directory; serve from it if the other holder has finished generating,
otherwise run exactly one generation pass; then release the lock.  `done`
is absorbing. -/
def step (w : Bool) (c : Config) : Config :=
  let pc := if w then c.pcB else c.pcA
  match pc with
  | .done => c
  | .start =>
    if c.cached then
      if w then { c with pcB := .done, resB := some true }
      else { c with pcA := .done, resA := some true }
    else
      match c.holder with
      | some _ => c
      | none =>
        if w then { c with pcB := .locked, holder := some true }
        else { c with pcA := .locked, holder := some false }
  | .locked =>
    if c.cached then
      if w then { c with pcB := .done, resB := some true, holder := none }
      else { c with pcA := .done, resA := some true, holder := none }
    else
      if w then
        { c with
            pcB := .done, resB := some true, holder := none, cached := true,
            genB := true }
      else
        { c with
            pcA := .done, resA := some true, holder := none, cached := true,
            genA := true }

/-- Modelled from the spec: initial state for two concurrent requests for
the same *uncached* asset. -/
def init : Config :=
  ⟨.start, .start, none, false, false, false, none, none⟩

/-- Run a schedule (an arbitrary interleaving of the two requests'
steps). -/
def run (sched : List Bool) : Config :=
  sched.foldl (fun c w => step w c) init

/-- Number of generation passes performed. -/
def gens (c : Config) : Nat :=
  (if c.genA then 1 else 0) + (if c.genB then 1 else 0)

/-- Invariant of the locking protocol: `cached` records exactly whether
some generation pass ran, at most one request ever generates, and a
finished request has served the manifest from the (by then populated)
cache directory. -/
def Inv (c : Config) : Prop :=
  c.cached = (c.genA || c.genB) ∧
  (c.genA && c.genB) = false ∧
  (c.pcA = .done → c.resA = some true ∧ c.cached = true) ∧
  (c.pcB = .done → c.resB = some true ∧ c.cached = true)

instance (c : Config) : Decidable (Inv c) := by
  unfold Inv; infer_instance

end Manifest

namespace Splitter

/-- A subprocess error is typed and carries the diagnostic (stderr) text
of a failing prober or encoder invocation of the environment. -/
def errFromSubprocess (env : Env) (e : SplitError) : Prop :=
  (∃ msg, e = .ffprobeFailed msg ∧ ∃ g, env.duration g = .error msg) ∨
  (∃ msg, e = .ffmpegFailed msg ∧ ∃ c, env.runCmd c = .error msg)

/-- Concrete environment: a single 10-byte file `"a"`, all subprocess
calls succeed. -/
def envS : Env :=
  ⟨fun f => if f = "a" then some 10 else none,
   fun _ => .ok 100,
   fun _ => none,
   fun _ => .ok ()⟩

/-- Adversarial environment: every path (including every part file the
encoder writes) has size 100, all subprocess calls succeed.  The re-mux
never shrinks anything, so the re-split recursion of `split_video` never
bottoms out. -/
def envAdv : Env :=
  ⟨fun _ => some 100,
   fun _ => .ok 100,
   fun _ => none,
   fun _ => .ok ()⟩

/-- Stream metadata of a source with a non-square sample aspect ratio, a
16:9 display aspect and a 90° rotate tag. -/
def metaC6 : StreamMeta := ⟨some "4:3", some "16:9", some "90"⟩

/-- Environment for the copy-failure fallback scenario: `"v.mp4"` is 100
bytes (budget 60 → two 50-byte parts), the prober reports the metadata
`metaC6`, and the stream-copy slice of part 1 fails while every other
invocation succeeds. -/
def envC6 : Env :=
  ⟨fun f =>
      if f = "v.mp4" then some 100
      else if f = "v_part1.mp4" then some 50
      else if f = "v_part2.mp4" then some 50
      else none,
   fun _ => .ok 100,
   fun _ => some metaC6,
   fun c =>
     match c with
     | .copy _ _ _ out =>
       if out = "v_part1.mp4" then .error "Conversion failed!" else .ok ()
     | _ => .ok ()⟩

end Splitter

namespace Server

/-- Concrete server environment for witness evaluations: a configured
token, a `getFile` API that always resolves, and a constant fingerprint
oracle. -/
def envW : SEnv :=
  ⟨some "TOK", fun _ => .ok "p.mp4" (some 7), fun _ => "E"⟩

/-- A cache holding one entry for handle `"f"`, inserted at time 0. -/
def cacheW : Cache := [("f", ⟨"u", some 100, 0⟩)]

/-- The full `Range` header string `"bytes=" ++ da ++ "-" ++ db` built
from two digit groups. -/
def rangeHeaderStr (da db : List Char) : String :=
  "bytes=" ++ ⟨da⟩ ++ "-" ++ ⟨db⟩

/-- A video record whose metadata lists exactly one part. -/
def videoOnePart : VideoRec :=
  ⟨some "master", some ⟨some [⟨some 1, some "p1"⟩]⟩⟩

/-- A video record with no parts in its metadata. -/
def videoNoParts : VideoRec := ⟨some "solo", some ⟨some []⟩⟩

end Server

/-! ## Theorems -/

namespace Manifest

/-- The protocol invariant holds initially and is preserved by every
step of either request. -/
theorem inv_step (w : Bool) (c : Config) (h : Inv c) : Inv (step w c) := by
  obtain ⟨pcA, pcB, holder, cached, genA, genB, resA, resB⟩ := c
  revert h
  revert pcA pcB holder cached genA genB resA resB
  cases w <;> decide

/-- The invariant holds after running any schedule from the initial
(uncached) state. -/
theorem inv_run (sched : List Bool) : Inv (run sched) := by
  have hgen : ∀ (l : List Bool) (c : Config), Inv c →
      Inv (l.foldl (fun c w => step w c) c) := by
    intro l
    induction l with
    | nil => intro c hc; exact hc
    | cons w rest ih => intro c hc; exact ih _ (inv_step w c hc)
  exact hgen sched init (by decide)

/-- Claim C4: manifest generation is at-most-once-in-flight per asset:
for every interleaving of two concurrent manifest requests for the same
uncached asset that runs both requests to completion, exactly one
generation pass was performed — the other request waited on the per-asset
lock (or found the manifest already cached) and served from the cache
directory — and both requests received the same successful result. -/
theorem generate_hls_at_most_once (sched : List Bool)
    (hA : (run sched).pcA = .done) (hB : (run sched).pcB = .done) :
    gens (run sched) = 1 ∧ (run sched).resA = some true ∧
      (run sched).resB = some true := by
  obtain ⟨h1, h2, h3, h4⟩ := inv_run sched
  obtain ⟨hrA, hcA⟩ := h3 hA
  obtain ⟨hrB, _⟩ := h4 hB
  refine ⟨?_, hrA, hrB⟩
  unfold gens
  rw [hcA] at h1
  cases hga : (run sched).genA <;> cases hgb : (run sched).genB <;>
    rw [hga, hgb] at h1 h2 <;> simp_all

/-- Witness for C4 at the schedule where request B attempts the lock
while A holds it, waits, and then serves from the cache. -/
theorem generate_hls_at_most_once_witness :
    gens (run [false, true, false, true, true]) = 1 ∧
    (run [false, true, false, true, true]).resA = some true ∧
    (run [false, true, false, true, true]).resB = some true :=
  generate_hls_at_most_once [false, true, false, true, true]
    (by decide) (by decide)

end Manifest

namespace Server

/-- Claim C10: a `file_id` that is `None`, empty, or whitespace-only is
rejected with HTTP 404 before the cache is consulted or any upstream call
is made: the cache is returned unchanged and no network call occurs,
whatever the cache contents and environment. -/
theorem get_file_info_cached_blank_404 (env : SEnv) (cache : Cache)
    (now : ℚ) (file_id : Option String)
    (h : file_id = none ∨ ∃ s, file_id = some s ∧ Splitter.pyStrip s = "") :
    get_file_info_cached env cache now file_id = (.error 404, cache, false) := by
  rcases h with rfl | ⟨s, rfl, hs⟩
  · rfl
  · simp [get_file_info_cached, hs]

/-- Witness for C10 at a whitespace-only file id. -/
theorem get_file_info_cached_blank_404_witness :
    get_file_info_cached envW [] 0 (some "  ") = (.error 404, [], false) :=
  get_file_info_cached_blank_404 envW [] 0 (some "  ")
    (Or.inr ⟨"  ", rfl, by decide⟩)

/-- Claim C5 counterexample: an asset with exactly one part (`len(parts)
= 1`) is *not* delegated to the single-file proxy: `stream_concat` runs
the download-and-concatenate path over that single part. -/
theorem stream_concat_single_part_not_delegated :
    (normParts videoOnePart).length ≤ 1 ∧
    stream_concat (some videoOnePart) = .concat ["p1"] ∧
    ∀ fid, stream_concat (some videoOnePart) ≠ .delegate fid := by
  refine ⟨by decide, by decide, ?_⟩
  intro fid h
  rw [show stream_concat (some videoOnePart) = .concat ["p1"] from by decide]
    at h
  exact ConcatAction.noConfusion h

/-- Claim C5 (amended): only an asset whose metadata parts list is empty
is delegated to the single-file Range Proxy (`stream_video` on the
record's own file id); an asset with exactly one part is served by the
download-and-concatenate path over that part's id. -/
theorem stream_concat_dispatch (v : VideoRec) :
    (∀ fid, normParts v = [] → v.file_id = some fid → fid ≠ "" →
      stream_concat (some v) = .delegate fid) ∧
    (∀ p pid, normParts v = [p] → p.file_id = some pid → pid ≠ "" →
      Splitter.pyStrip pid ≠ "" →
      stream_concat (some v) = .concat [Splitter.pyStrip pid]) := by
  constructor
  · intro fid hparts hfid hne
    simp [stream_concat, hparts, hfid, hne]
  · intro p pid hparts hpid hne hclean
    simp [stream_concat, hparts, collectFileIds, sortByPartKey,
      insertAscPart, hpid, hne, hclean]

/-- Witness for C5 (amended): a no-parts record delegates; a one-part
record is concatenated. -/
theorem stream_concat_dispatch_witness :
    stream_concat (some videoNoParts) = .delegate "solo" ∧
    stream_concat (some videoOnePart) = .concat ["p1"] := by
  constructor
  · exact (stream_concat_dispatch videoNoParts).1 "solo" (by decide) rfl
      (by decide)
  · exact (stream_concat_dispatch videoOnePart).2 ⟨some 1, some "p1"⟩ "p1"
      (by decide) rfl (by decide) (by decide)

/-- Claim C3 counterexample: with an empty resolver cache, a request
whose `If-None-Match` equals the ETag is answered 304, but the handle is
still resolved first: the Telegram resolution API *is* called (the third
component records the network call). -/
theorem stream_video_304_still_resolves :
    (stream_video envW [] 0 "f" none (some "E") none none).1 =
      .ok resp304 ∧
    (stream_video envW [] 0 "f" none (some "E") none none).2.2 = true := by
  decide

end Server

namespace Server

/-- A blank-stripped handle that resolves successfully is non-blank. -/
theorem get_file_info_cached_ok_nonblank {env : SEnv} {cache : Cache}
    {now : ℚ} {fid : String} {v : String × Option Nat} {c' : Cache} {net : Bool}
    (hres : get_file_info_cached env cache now (some fid) = (.ok v, c', net)) :
    Splitter.pyStrip fid ≠ "" := by
  intro hb
  unfold get_file_info_cached at hres
  simp [hb] at hres

/-- Cache-hit behavior of the resolver: a fresh entry is returned as-is,
with no cache mutation and no network call. -/
theorem get_file_info_cached_hit (env : SEnv) (cache : Cache) (now : ℚ)
    (fid : String) (e : CacheEntry)
    (hne : Splitter.pyStrip fid ≠ "")
    (he : dictGet cache (Splitter.pyStrip fid) = some e)
    (hfresh : now - e.timestamp < CACHE_TTL) :
    get_file_info_cached env cache now (some fid) =
      (.ok (e.url, e.size), cache, false) := by
  unfold get_file_info_cached
  simp [hne, he, hfresh]

/-- Claim C3 (amended): a request whose `If-None-Match` equals the
computed ETag is answered 304 Not Modified with no body and no upstream
*download* fetch (`resp304.upstream = none`); the handle is still resolved
first via `get_file_info_cached`, whose cache state and network effect the
response inherits — in particular no network call of any kind occurs when
a fresh cache entry exists. -/
theorem stream_video_304_no_download
    (env : SEnv) (cache : Cache) (now : ℚ) (fid u : String)
    (szo : Option Nat) (cache' : Cache) (net : Bool)
    (range ect downlink : Option String)
    (hres : get_file_info_cached env cache now (some fid) =
      (.ok (u, szo), cache', net))
    (hne : env.etag fid ≠ "") :
    stream_video env cache now fid range (some (env.etag fid)) ect downlink =
      (.ok resp304, cache', net) ∧
    resp304.upstream = none ∧
    (∀ e, dictGet cache (Splitter.pyStrip fid) = some e →
      now - e.timestamp < CACHE_TTL → net = false) := by
  refine ⟨?_, rfl, ?_⟩
  · unfold stream_video
    rw [hres]
    simp [strTruthy, generate_etag, hne]
  · intro e he hfresh
    have hnb := get_file_info_cached_ok_nonblank hres
    rw [get_file_info_cached_hit env cache now fid e hnb he hfresh] at hres
    exact (congrArg (fun t => t.2.2) hres).symm

/-- Witness for C3 (amended) at a fresh cache entry: 304 with no network
call at all. -/
theorem stream_video_304_no_download_witness :
    stream_video envW cacheW 0 "f" none (some "E") none none =
      (.ok resp304, cacheW, false) ∧
    resp304.upstream = none ∧
    (∀ e, dictGet cacheW (Splitter.pyStrip "f") = some e →
      (0 : ℚ) - e.timestamp < CACHE_TTL → false = false) :=
  stream_video_304_no_download envW cacheW 0 "f" "u" (some 100) cacheW false
    none none none
    (get_file_info_cached_hit envW cacheW 0 "f" ⟨"u", some 100, 0⟩ (by decide)
      (by decide) (by norm_num [CACHE_TTL]))
    (by decide)

/-- Setting a key makes it retrievable with the stored value. -/
theorem dictGet_dictSet (l : Cache) (k : String) (v : CacheEntry) :
    dictGet (dictSet l k v) k = some v := by
  induction l with
  | nil => simp [dictSet, dictGet]
  | cons x rest ih =>
    obtain ⟨k', v'⟩ := x
    by_cases h : k' = k
    · subst h; simp [dictSet, dictGet]
    · simp [dictSet, dictGet, h, ih]

/-- Members after a dict assignment are the new pair or old members. -/
theorem mem_dictSet {l : Cache} {k : String} {v : CacheEntry}
    {x : String × CacheEntry} (hx : x ∈ dictSet l k v) :
    x = (k, v) ∨ x ∈ l := by
  induction l with
  | nil => simpa [dictSet] using hx
  | cons y rest ih =>
    obtain ⟨k', v'⟩ := y
    by_cases h : k' = k
    · subst h
      simp [dictSet] at hx
      rcases hx with rfl | hx
      · exact Or.inl rfl
      · exact Or.inr (List.mem_cons_of_mem _ hx)
    · simp [dictSet, h] at hx
      rcases hx with rfl | hx
      · exact Or.inr (List.mem_cons_self _ _)
      · rcases ih hx with h1 | h2
        · exact Or.inl h1
        · exact Or.inr (List.mem_cons_of_mem _ h2)

/-- The assigned pair is a member of the updated dict. -/
theorem self_mem_dictSet (l : Cache) (k : String) (v : CacheEntry) :
    (k, v) ∈ dictSet l k v := by
  induction l with
  | nil => simp [dictSet]
  | cons y rest ih =>
    obtain ⟨k', v'⟩ := y
    by_cases h : k' = k <;> simp [dictSet, h, ih]

/-- Membership through stable descending insertion. -/
theorem mem_insertDescTs {x y : String × CacheEntry} {l : Cache} :
    y ∈ insertDescTs x l ↔ y = x ∨ y ∈ l := by
  induction l with
  | nil => simp [insertDescTs]
  | cons a as ih =>
    by_cases h : a.2.timestamp ≤ x.2.timestamp
    all_goals simp [insertDescTs, h, ih]
    all_goals tauto

/-- Membership through the stable descending sort. -/
theorem mem_sortDescTs {y : String × CacheEntry} {l : Cache} :
    y ∈ sortDescTs l ↔ y ∈ l := by
  induction l with
  | nil => simp [sortDescTs]
  | cons a as ih => simp [sortDescTs, mem_insertDescTs, ih]

/-- Inserting a maximal element puts it at the head. -/
theorem insertDescTs_head_of_max {x : String × CacheEntry} {l : Cache}
    (h : ∀ y ∈ l, y.2.timestamp ≤ x.2.timestamp) :
    ∃ t, insertDescTs x l = x :: t := by
  cases l with
  | nil => exact ⟨[], rfl⟩
  | cons y ys =>
    have := h y (List.mem_cons_self y ys)
    exact ⟨y :: ys, by simp [insertDescTs, this]⟩

/-- A strictly maximal element sorts to the head. -/
theorem sortDescTs_head {l : Cache} {x : String × CacheEntry}
    (hx : x ∈ l)
    (hmax : ∀ y ∈ l, y = x ∨ y.2.timestamp < x.2.timestamp) :
    ∃ t, sortDescTs l = x :: t := by
  induction l with
  | nil => cases hx
  | cons a as ih =>
    by_cases hax : a = x
    · subst hax
      have hall : ∀ y ∈ sortDescTs as, y.2.timestamp ≤ a.2.timestamp := by
        intro y hy
        rcases hmax y (List.mem_cons_of_mem _ (mem_sortDescTs.mp hy)) with
          rfl | hlt
        · exact le_refl _
        · exact le_of_lt hlt
      obtain ⟨t, ht⟩ := insertDescTs_head_of_max hall
      exact ⟨t, by simpa [sortDescTs] using ht⟩
    · have hxas : x ∈ as := by
        rcases List.mem_cons.mp hx with h1 | h2
        · exact absurd h1.symm hax
        · exact h2
      obtain ⟨t, ht⟩ :=
        ih hxas (fun y hy => hmax y (List.mem_cons_of_mem _ hy))
      have hlt : a.2.timestamp < x.2.timestamp := by
        rcases hmax a (List.mem_cons_self a as) with h1 | h2
        · exact absurd h1 hax
        · exact h2
      refine ⟨insertDescTs a t, ?_⟩
      have hnle : ¬ x.2.timestamp ≤ a.2.timestamp := not_le.mpr hlt
      simp [sortDescTs, ht, insertDescTs, hnle]

/-- Storing an entry whose timestamp is strictly newer than every cached
one survives the eviction sweep and is retrievable afterwards. -/
theorem dictGet_after_store (cache : Cache) (k : String) (v : CacheEntry)
    (hts : ∀ x ∈ cache, x.2.timestamp < v.timestamp) :
    dictGet (clean_cache_if_needed (dictSet cache k v)) k = some v := by
  unfold clean_cache_if_needed
  by_cases hlen : (dictSet cache k v).length > MAX_CACHE_SIZE
  · have hmem : (k, v) ∈ dictSet cache k v := self_mem_dictSet cache k v
    have hmax : ∀ y ∈ dictSet cache k v,
        y = (k, v) ∨ y.2.timestamp < (k, v).2.timestamp := by
      intro y hy
      rcases mem_dictSet hy with rfl | hmem'
      · exact Or.inl rfl
      · exact Or.inr (hts y hmem')
    obtain ⟨t, ht⟩ := sortDescTs_head hmem hmax
    rw [if_pos hlen, ht, show MAX_CACHE_SIZE = 999 + 1 from rfl,
      List.take_succ_cons]
    simp [dictGet]
  · rw [if_neg hlen]
    exact dictGet_dictSet cache k v

/-- Cache-miss/expiry behavior of the resolver: with no fresh entry and a
configured token, the Telegram `getFile` API is called and its outcome
determines the result. -/
theorem get_file_info_cached_miss (env : SEnv) (cache : Cache) (now : ℚ)
    (fid tok : String)
    (hne : Splitter.pyStrip fid ≠ "")
    (hmiss : ∀ e, dictGet cache (Splitter.pyStrip fid) = some e →
      CACHE_TTL ≤ now - e.timestamp)
    (htok : env.token = some tok) (htokne : tok ≠ "") :
    get_file_info_cached env cache now (some fid) =
      match env.getFile (Splitter.pyStrip fid) with
      | .notOk d =>
        if strHas (d.getD "Unknown error").toLower "file is too big"
        then (.error 413, cache, true) else (.error 404, cache, true)
      | .ok p fs =>
        (.ok (downloadUrl tok p, fs),
          clean_cache_if_needed (dictSet cache (Splitter.pyStrip fid)
            ⟨downloadUrl tok p, fs, now⟩), true) := by
  unfold get_file_info_cached
  have hfresh : (match dictGet cache (Splitter.pyStrip fid) with
      | some cached =>
        if now - cached.timestamp < CACHE_TTL then some cached else none
      | none => (none : Option CacheEntry)) = none := by
    cases hc : dictGet cache (Splitter.pyStrip fid) with
    | none => rfl
    | some e => simp [not_lt.mpr (hmiss e hc)]
  simp only [hne, if_neg, hfresh, htok, htokne]
  simp [hne, htokne]

/-- Claim C9: for every handle, the resolver returns the cached
`(url, size)` tuple with no upstream call exactly when a cache entry of
age strictly less than the TTL exists; otherwise (entry absent or age ≥
TTL = 1 hour) it performs a fresh `getFile` resolution call, and on
success stores the new result under the handle with the current
timestamp. -/
theorem get_file_info_cached_ttl
    (env : SEnv) (cache : Cache) (now : ℚ) (hdl tok : String)
    (hh : Splitter.pyStrip hdl = hdl) (hne : hdl ≠ "")
    (htok : env.token = some tok) (htokne : tok ≠ "") :
    (∀ e, dictGet cache hdl = some e → now - e.timestamp < CACHE_TTL →
      get_file_info_cached env cache now (some hdl) =
        (.ok (e.url, e.size), cache, false)) ∧
    ((get_file_info_cached env cache now (some hdl)).2.2 = false ↔
      ∃ e, dictGet cache hdl = some e ∧ now - e.timestamp < CACHE_TTL) ∧
    ((∀ e, dictGet cache hdl = some e → CACHE_TTL ≤ now - e.timestamp) →
      (get_file_info_cached env cache now (some hdl)).2.2 = true ∧
      (∀ p fs, env.getFile hdl = .ok p fs →
        (∀ x ∈ cache, x.2.timestamp < now) →
        dictGet (get_file_info_cached env cache now (some hdl)).2.1 hdl =
          some ⟨downloadUrl tok p, fs, now⟩ ∧
        (get_file_info_cached env cache now (some hdl)).1 =
          .ok (downloadUrl tok p, fs))) := by
  have hstrip : Splitter.pyStrip hdl ≠ "" := by rw [hh]; exact hne
  refine ⟨?_, ⟨?_, ?_⟩, ?_⟩
  · intro e he hf
    exact get_file_info_cached_hit env cache now hdl e hstrip
      (by rw [hh]; exact he) hf
  · intro hnet
    by_contra hno
    push_neg at hno
    have hmiss : ∀ e, dictGet cache hdl = some e →
        CACHE_TTL ≤ now - e.timestamp := hno
    have hm := get_file_info_cached_miss env cache now hdl tok hstrip
      (by rw [hh]; exact hmiss) htok htokne
    rw [hh] at hm
    rw [hm] at hnet
    cases hg : env.getFile hdl with
    | notOk d =>
      rw [hg] at hnet
      by_cases hbig : strHas (d.getD "Unknown error").toLower
          "file is too big" = true
      · simp [hbig] at hnet
      · simp [hbig] at hnet
    | ok p fs => rw [hg] at hnet; simp at hnet
  · rintro ⟨e, he, hf⟩
    rw [get_file_info_cached_hit env cache now hdl e hstrip
      (by rw [hh]; exact he) hf]
  · intro hmiss
    have hm := get_file_info_cached_miss env cache now hdl tok hstrip
      (by rw [hh]; exact hmiss) htok htokne
    rw [hh] at hm
    constructor
    · rw [hm]
      cases hg : env.getFile hdl with
      | notOk d =>
        by_cases hbig : strHas (d.getD "Unknown error").toLower
            "file is too big" = true
        · simp [hbig]
        · simp [hbig]
      | ok p fs => simp
    · intro p fs hg hts
      rw [hm, hg]
      refine ⟨?_, rfl⟩
      exact dictGet_after_store cache hdl ⟨downloadUrl tok p, fs, now⟩ hts

/-- Witness for C9 at a handle whose only cache entry is exactly TTL old:
the request goes back upstream. -/
theorem get_file_info_cached_ttl_witness :
    (∀ e, dictGet cacheW "f" = some e →
      (3600 : ℚ) - e.timestamp < CACHE_TTL →
      get_file_info_cached envW cacheW 3600 (some "f") =
        (.ok (e.url, e.size), cacheW, false)) ∧
    ((get_file_info_cached envW cacheW 3600 (some "f")).2.2 = false ↔
      ∃ e, dictGet cacheW "f" = some e ∧
        (3600 : ℚ) - e.timestamp < CACHE_TTL) ∧
    ((∀ e, dictGet cacheW "f" = some e →
      CACHE_TTL ≤ (3600 : ℚ) - e.timestamp) →
      (get_file_info_cached envW cacheW 3600 (some "f")).2.2 = true ∧
      (∀ p fs, envW.getFile "f" = .ok p fs →
        (∀ x ∈ cacheW, x.2.timestamp < 3600) →
        dictGet (get_file_info_cached envW cacheW 3600 (some "f")).2.1 "f" =
          some ⟨downloadUrl "TOK" p, fs, 3600⟩ ∧
        (get_file_info_cached envW cacheW 3600 (some "f")).1 =
          .ok (downloadUrl "TOK" p, fs))) :=
  get_file_info_cached_ttl envW cacheW 3600 "f" "TOK" (by decide) (by decide)
    rfl (by decide)

/-- `takeWhile` passes over a prefix it accepts entirely. -/
theorem takeWhile_append_of_all {p : Char → Bool} (l1 l2 : List Char)
    (h : ∀ c ∈ l1, p c = true) :
    (l1 ++ l2).takeWhile p = l1 ++ l2.takeWhile p := by
  induction l1 with
  | nil => simp
  | cons a as ih =>
    have ha := h a (List.mem_cons_self a as)
    simp only [List.cons_append, List.takeWhile_cons, ha, if_true]
    rw [ih (fun c hc => h c (List.mem_cons_of_mem _ hc))]

/-- `takeWhile` keeps a list it accepts entirely. -/
theorem takeWhile_all {p : Char → Bool} (l : List Char)
    (h : ∀ c ∈ l, p c = true) : l.takeWhile p = l := by
  have := takeWhile_append_of_all l [] h
  simpa using this

/-- The character list of a well-formed `bytes=a-b` header. -/
theorem rangeHeaderStr_toList (da db : List Char) :
    (rangeHeaderStr da db).toList =
      'b' :: 'y' :: 't' :: 'e' :: 's' :: '=' :: (da ++ '-' :: db) := by
  simp [rangeHeaderStr, String.toList]

/-- A well-formed `bytes=a-b` header is non-empty. -/
theorem rangeHeaderStr_ne_empty (da db : List Char) :
    rangeHeaderStr da db ≠ "" := by
  intro h
  have := congrArg String.toList h
  rw [rangeHeaderStr_toList] at this
  simp [String.toList] at this

/-- The regex `bytes=(\d+)-(\d*)` matches a well-formed header exactly at
its two digit groups. -/
theorem rangeRegexMatchL_exact (da db : List Char) (hda : da ≠ [])
    (h1 : ∀ c ∈ da, c.isDigit = true) (h2 : ∀ c ∈ db, c.isDigit = true) :
    rangeRegexMatchL
      ('b' :: 'y' :: 't' :: 'e' :: 's' :: '=' :: (da ++ '-' :: db)) =
      some (da, db) := by
  have hdash : List.takeWhile Char.isDigit ('-' :: db) = [] := by
    simp [List.takeWhile_cons]
  have htake : (da ++ '-' :: db).takeWhile Char.isDigit = da := by
    rw [takeWhile_append_of_all da ('-' :: db) h1, hdash, List.append_nil]
  have hempty : da.isEmpty = false := by
    simpa [List.isEmpty_iff] using hda
  have hdrop : (da ++ '-' :: db).drop da.length = '-' :: db :=
    List.drop_left da ('-' :: db)
  simp only [rangeRegexMatchL, htake, hempty, Bool.false_eq_true, if_false,
    hdrop]
  rw [takeWhile_all db h2]

/-- `parse_range_header` accepts a valid `bytes=a-b` window. -/
theorem parse_range_header_exact (da db : List Char) (sz : Nat)
    (hda : da ≠ []) (hdb : db ≠ [])
    (h1 : ∀ c ∈ da, c.isDigit = true) (h2 : ∀ c ∈ db, c.isDigit = true)
    (hab : digitsVal da ≤ digitsVal db) (hb : digitsVal db < sz) :
    parse_range_header (some (rangeHeaderStr da db)) (sz : Int) =
      some ((digitsVal da : Int), (digitsVal db : Int)) := by
  simp only [parse_range_header]
  rw [if_neg (rangeHeaderStr_ne_empty da db), rangeHeaderStr_toList,
    rangeRegexMatchL_exact da db hda h1 h2]
  have hdbe : db.isEmpty = false := by simpa [List.isEmpty_iff] using hdb
  have hstart : ¬ ((digitsVal da : Int) < 0 ∨ (digitsVal da : Int) ≥ sz) := by
    push_neg
    constructor
    · exact Int.ofNat_nonneg _
    · exact lt_of_le_of_lt (Int.ofNat_le.mpr hab) (Int.ofNat_lt.mpr hb)
  have hclamp : ¬ ((digitsVal db : Int) ≥ sz) := by
    push_neg
    exact Int.ofNat_lt.mpr hb
  have hord : ¬ ((digitsVal da : Int) > (digitsVal db : Int)) := by
    push_neg
    exact Int.ofNat_le.mpr hab
  simp [hdbe, hstart, hclamp, hord]
  omega

/-- Claim C2: for a handle of known size and a valid `bytes=a-b` Range
header with `0 ≤ a ≤ b < size`, `stream_video` responds 206 with
`Content-Range: bytes a-b/size`, `Content-Length = b-a+1`, and requests
exactly the window `bytes=a-b` from the resolved upstream URL. -/
theorem stream_video_valid_range_206
    (env : SEnv) (cache : Cache) (now : ℚ) (fid u : String) (sz : Nat)
    (cache' : Cache) (net : Bool) (da db : List Char)
    (ect downlink : Option String)
    (hres : get_file_info_cached env cache now (some fid) =
      (.ok (u, some sz), cache', net))
    (hda : da ≠ []) (hdb : db ≠ [])
    (h1 : ∀ c ∈ da, c.isDigit = true) (h2 : ∀ c ∈ db, c.isDigit = true)
    (hab : digitsVal da ≤ digitsVal db) (hb : digitsVal db < sz) :
    stream_video env cache now fid (some (rangeHeaderStr da db)) none
      ect downlink =
      (.ok ⟨206, some (env.etag fid), some "bytes",
        some "public, max-age=3600", some "keep-alive",
        some "timeout=60, max=100",
        some ("bytes " ++ toString ((digitsVal da : Int)) ++ "-" ++
          toString ((digitsVal db : Int)) ++ "/" ++ toString sz),
        some (toString ((digitsVal db : Int) - (digitsVal da : Int) + 1)),
        some (get_adaptive_chunk_size (pyOr ect downlink)),
        some ⟨u, some ("bytes=" ++ toString ((digitsVal da : Int)) ++ "-" ++
          toString ((digitsVal db : Int)))⟩⟩,
      cache', net) := by
  have hszne : sz ≠ 0 := by omega
  unfold stream_video
  rw [hres]
  have hrange : strTruthy (some (rangeHeaderStr da db)) = true := by
    simp [strTruthy, rangeHeaderStr_ne_empty da db]
  have hnat : natTruthy (some sz) = true := by simp [natTruthy, hszne]
  simp only [strTruthy, hrange, hnat, Bool.false_eq_true, if_false,
    and_true, true_and, and_false, false_and, if_true, Option.getD,
    generate_etag]
  simp [parse_range_header_exact da db sz hda hdb h1 h2 hab hb, hnat,
    rangeHeaderStr_ne_empty da db]

/-- Witness for C2 at `bytes=1-5` over a 100-byte cached handle. -/
theorem stream_video_valid_range_206_witness :
    stream_video envW cacheW 0 "f" (some (rangeHeaderStr ['1'] ['5'])) none
      none none =
      (.ok ⟨206, some (envW.etag "f"), some "bytes",
        some "public, max-age=3600", some "keep-alive",
        some "timeout=60, max=100",
        some ("bytes " ++ toString ((digitsVal ['1'] : Int)) ++ "-" ++
          toString ((digitsVal ['5'] : Int)) ++ "/" ++ toString (100 : Nat)),
        some (toString ((digitsVal ['5'] : Int) - (digitsVal ['1'] : Int) + 1)),
        some (get_adaptive_chunk_size (pyOr none none)),
        some ⟨"u", some ("bytes=" ++ toString ((digitsVal ['1'] : Int)) ++
          "-" ++ toString ((digitsVal ['5'] : Int)))⟩⟩,
      cacheW, false) :=
  stream_video_valid_range_206 envW cacheW 0 "f" "u" 100 cacheW false
    ['1'] ['5'] none none
    (get_file_info_cached_hit envW cacheW 0 "f" ⟨"u", some 100, 0⟩ (by decide)
      (by decide) (by norm_num [CACHE_TTL]))
    (by decide) (by decide) (by decide) (by decide) (by decide) (by decide)

/-- The three invalid-Range classes of the spec make `parse_range_header`
return `None`: a non-matching form, `start ≥ size`, or `start > end` after
clamping the end to `size - 1`. -/
theorem parse_range_header_none_of_invalid (rh : String) (sz : Nat)
    (hinv : rangeRegexMatchL rh.toList = none ∨
      (∃ d1 d2, rangeRegexMatchL rh.toList = some (d1, d2) ∧
        (sz : Int) ≤ (digitsVal d1 : Int)) ∨
      (∃ d1 d2, rangeRegexMatchL rh.toList = some (d1, d2) ∧
        (digitsVal d1 : Int) < (sz : Int) ∧
        (if (if d2.isEmpty = true then (sz : Int) - 1
             else (digitsVal d2 : Int)) ≥ (sz : Int) then (sz : Int) - 1
         else if d2.isEmpty = true then (sz : Int) - 1
              else (digitsVal d2 : Int)) < (digitsVal d1 : Int))) :
    parse_range_header (some rh) (sz : Int) = none := by
  simp only [parse_range_header]
  by_cases hrh : rh = ""
  · simp [hrh]
  · rw [if_neg hrh]
    rcases hinv with hm | ⟨d1, d2, hm, hge⟩ | ⟨d1, d2, hm, hlt, hclamp⟩
    · rw [hm]
    · rw [hm]
      have hor : ((digitsVal d1 : Int) < 0 ∨ (digitsVal d1 : Int) ≥ sz) :=
        Or.inr hge
      simp [hor]
      intro hcon
      exfalso
      omega
    · rw [hm]
      have h1 : ¬ ((digitsVal d1 : Int) < 0 ∨ (digitsVal d1 : Int) ≥ sz) := by
        push_neg
        exact ⟨Int.ofNat_nonneg _, hlt⟩
      simp [h1]
      intro h2
      simpa using hclamp

/-- Every outcome of `stream_video` is a 500 re-raise or a response with
status 304, 206 or 200. -/
theorem stream_video_status (env : SEnv) (cache : Cache) (now : ℚ)
    (fid : String) (range inm ect dl : Option String) :
    (stream_video env cache now fid range inm ect dl).1 = .error 500 ∨
    ∃ r, (stream_video env cache now fid range inm ect dl).1 = .ok r ∧
      (r.status = 304 ∨ r.status = 206 ∨ r.status = 200) := by
  unfold stream_video
  rcases get_file_info_cached env cache now (some fid) with ⟨r1, c', net⟩
  rcases r1 with k | ⟨u, szo⟩
  · left
    rfl
  · right
    dsimp only
    split
    · exact ⟨resp304, rfl, Or.inl rfl⟩
    · split
      · split
        · exact ⟨_, rfl, Or.inr (Or.inl rfl)⟩
        · exact ⟨_, rfl, Or.inr (Or.inr rfl)⟩
      · exact ⟨_, rfl, Or.inr (Or.inr rfl)⟩

/-- `stream_video` never responds 416. -/
theorem stream_video_no_416 (env : SEnv) (cache : Cache) (now : ℚ)
    (fid : String) (range inm ect dl : Option String) :
    (stream_video env cache now fid range inm ect dl).1 ≠ .error 416 ∧
    (∀ r, (stream_video env cache now fid range inm ect dl).1 = .ok r →
      r.status ≠ 416) := by
  rcases stream_video_status env cache now fid range inm ect dl with
    h | ⟨r, hr, hs⟩
  · constructor
    · rw [h]
      simp
    · intro r hrr
      rw [h] at hrr
      exact absurd hrr (by simp)
  · constructor
    · rw [hr]
      simp
    · intro r' hr'
      rw [hr] at hr'
      injection hr' with h2
      subst h2
      rcases hs with h3 | h3 | h3
      all_goals rw [h3]
      all_goals decide

/-- Claim C8: for a handle of known size and an invalid Range header
(non-numeric form, `start ≥ size`, or `start > end` after clamping), the
proxy treats the Range as absent and serves the full file with status 200
and `Content-Length = size`, with no `Range` header sent upstream; and
`stream_video` never responds 416 on any input. -/
theorem stream_video_invalid_range_full
    (env : SEnv) (cache : Cache) (now : ℚ) (fid u : String) (sz : Nat)
    (cache' : Cache) (net : Bool) (rh : String) (ect downlink : Option String)
    (hres : get_file_info_cached env cache now (some fid) =
      (.ok (u, some sz), cache', net))
    (hsz : sz ≠ 0)
    (hinv : rangeRegexMatchL rh.toList = none ∨
      (∃ d1 d2, rangeRegexMatchL rh.toList = some (d1, d2) ∧
        (sz : Int) ≤ (digitsVal d1 : Int)) ∨
      (∃ d1 d2, rangeRegexMatchL rh.toList = some (d1, d2) ∧
        (digitsVal d1 : Int) < (sz : Int) ∧
        (if (if d2.isEmpty = true then (sz : Int) - 1
             else (digitsVal d2 : Int)) ≥ (sz : Int) then (sz : Int) - 1
         else if d2.isEmpty = true then (sz : Int) - 1
              else (digitsVal d2 : Int)) < (digitsVal d1 : Int))) :
    stream_video env cache now fid (some rh) none ect downlink =
      (.ok ⟨200, some (env.etag fid), some "bytes",
        some "public, max-age=3600", some "keep-alive",
        some "timeout=60, max=100", none, some (toString sz),
        some (get_adaptive_chunk_size (pyOr ect downlink)),
        some ⟨u, none⟩⟩, cache', net) ∧
    (∀ (fid2 : String) (range2 inm2 ect2 dl2 : Option String)
      (cache2 : Cache) (now2 : ℚ),
      (stream_video env cache2 now2 fid2 range2 inm2 ect2 dl2).1 ≠
        .error 416 ∧
      (∀ r, (stream_video env cache2 now2 fid2 range2 inm2 ect2 dl2).1 =
        .ok r → r.status ≠ 416)) := by
  constructor
  · have hpn := parse_range_header_none_of_invalid rh sz hinv
    unfold stream_video
    rw [hres]
    have h304 : ¬ (strTruthy none = true ∧
        (none : Option String) = some (generate_etag env fid)) := by
      simp [strTruthy]
    dsimp only [Option.getD_some]
    rw [if_neg h304]
    by_cases hrt : (strTruthy (some rh) = true ∧ natTruthy (some sz) = true)
    · rw [if_pos hrt, hpn]
      simp [natTruthy, hsz, generate_etag]
    · rw [if_neg hrt]
      simp [natTruthy, hsz, generate_etag]
  · intro fid2 range2 inm2 ect2 dl2 cache2 now2
    exact stream_video_no_416 env cache2 now2 fid2 range2 inm2 ect2 dl2

/-- Witness for C8 at the malformed header `bytes=x` on a 100-byte
handle. -/
theorem stream_video_invalid_range_full_witness :
    stream_video envW cacheW 0 "f" (some "bytes=x") none none none =
      (.ok ⟨200, some (envW.etag "f"), some "bytes",
        some "public, max-age=3600", some "keep-alive",
        some "timeout=60, max=100", none, some (toString (100 : Nat)),
        some (get_adaptive_chunk_size (pyOr none none)),
        some ⟨"u", none⟩⟩, cacheW, false) ∧
    (∀ (fid2 : String) (range2 inm2 ect2 dl2 : Option String)
      (cache2 : Cache) (now2 : ℚ),
      (stream_video envW cache2 now2 fid2 range2 inm2 ect2 dl2).1 ≠
        .error 416 ∧
      (∀ r, (stream_video envW cache2 now2 fid2 range2 inm2 ect2 dl2).1 =
        .ok r → r.status ≠ 416)) :=
  stream_video_invalid_range_full envW cacheW 0 "f" "u" 100 cacheW false
    "bytes=x" none none
    (get_file_info_cached_hit envW cacheW 0 "f" ⟨"u", some 100, 0⟩ (by decide)
      (by decide) (by norm_num [CACHE_TTL]))
    (by decide)
    (Or.inl (by decide))

end Server

namespace Splitter

/-- `omap` produces an `ok` result exactly from an inner `ok`. -/
theorem omap_eq_some_ok {f : List String → List String}
    {r : Option (Except SplitError (List String))} {parts : List String} :
    omap f r = some (.ok parts) ↔ ∃ l, r = some (.ok l) ∧ parts = f l := by
  rcases r with _ | ex
  · simp [omap]
  · rcases ex with e | l
    · simp [omap, Except.map]
    · simp [omap, Except.map]
      constructor
      · intro h
        exact h.symm
      · intro h
        exact h.symm

/-- `omap` preserves definedness. -/
theorem omap_isSome {f : List String → List String}
    {r : Option (Except SplitError (List String))} :
    (omap f r).isSome = r.isSome := by
  rcases r with _ | ex
  · rfl
  · rfl

/-- `omap` passes errors through unchanged. -/
theorem omap_eq_some_error {f : List String → List String}
    {r : Option (Except SplitError (List String))} {e : SplitError} :
    omap f r = some (.error e) ↔ r = some (.error e) := by
  rcases r with _ | ex
  · simp [omap]
  · rcases ex with e' | l
    · simp [omap, Except.map]
    · simp [omap, Except.map]

/-- `Except.map` produces `ok` exactly from `ok`. -/
theorem except_map_eq_ok {ε α β : Type} {f : α → β} {x : Except ε α} {b : β} :
    x.map f = .ok b ↔ ∃ a, x = .ok a ∧ b = f a := by
  rcases x with e | a
  · simp [Except.map]
  · simp [Except.map]
    constructor
    · intro h
      exact h.symm
    · intro h
      exact h.symm

/-- Soundness of the verification loop: if the recursive re-split only
returns within-budget parts, so does `verifyParts` — every kept part with
a readable size is within budget. -/
theorem verifyParts_ok_sizes (env : Env) (budget : Nat)
    (sa : String → List Event × Option (Except SplitError (List String)))
    (hsa : ∀ g parts', (sa g).2 = some (.ok parts') →
      ∀ p ∈ parts', ∀ s, env.getsize p = some s → s ≤ budget) :
    ∀ ps parts, (verifyParts sa env budget ps).2 = some (.ok parts) →
      ∀ p ∈ parts, ∀ s, env.getsize p = some s → s ≤ budget := by
  intro ps
  induction ps with
  | nil =>
    intro parts h p hp s hs
    simp [verifyParts] at h
    subst h
    cases hp
  | cons q rest ih =>
    intro parts h p hp s hs
    simp only [verifyParts] at h
    cases hq : env.getsize q with
    | none =>
      rw [hq] at h
      dsimp only at h
      obtain ⟨l, hl, rfl⟩ := omap_eq_some_ok.mp h
      rcases List.mem_cons.mp hp with rfl | hp'
      · rw [hq] at hs
        cases hs
      · exact ih l hl p hp' s hs
    | some psize =>
      rw [hq] at h
      dsimp only at h
      by_cases hle : psize ≤ budget
      · rw [if_pos hle] at h
        obtain ⟨l, hl, rfl⟩ := omap_eq_some_ok.mp h
        rcases List.mem_cons.mp hp with rfl | hp'
        · rw [hq] at hs
          injection hs with h2
          omega
        · exact ih l hl p hp' s hs
      · rw [if_neg hle] at h
        rcases hs1 : (sa q).2 with _ | ex
        · rw [hs1] at h
          cases h
        · rcases ex with e | subs
          · rw [hs1] at h
            simp at h
          · rw [hs1] at h
            dsimp only at h
            obtain ⟨l, hl, rfl⟩ := omap_eq_some_ok.mp h
            rcases List.mem_append.mp hp with hp1 | hp2
            · exact hsa q subs hs1 p hp1 s hs
            · exact ih l hl p hp2 s hs

/-- A failing slicing iteration raises an ffmpeg-typed error carrying the
stderr text of an encoder invocation of the environment. -/
theorem runPart_error (env : Env) (t : Bool) (f : String) (st du : ℚ)
    (m : Option StreamMeta) (out : String) (e : SplitError)
    (h : (runPart env t f st du m out).2.2 = .error e) :
    ∃ msg c, e = .ffmpegFailed msg ∧ env.runCmd c = .error msg := by
  unfold runPart at h
  by_cases ht : t = true
  · rw [if_pos ht] at h
    dsimp only at h
    cases hc : env.runCmd (cmdTranscode f st du m out) with
    | error msg =>
      rw [hc] at h
      injection h with h2
      exact ⟨msg, cmdTranscode f st du m out, h2.symm, hc⟩
    | ok u =>
      rw [hc] at h
      cases h
  · rw [if_neg ht] at h
    dsimp only at h
    cases hc : env.runCmd (.copy f st du out) with
    | ok u =>
      rw [hc] at h
      cases h
    | error e1 =>
      rw [hc] at h
      dsimp only at h
      cases hc2 : env.runCmd (cmdTranscode f st du m out) with
      | ok u =>
        rw [hc2] at h
        cases h
      | error e2 =>
        rw [hc2] at h
        injection h with h2
        exact ⟨e2, cmdTranscode f st du m out, h2.symm, hc2⟩

/-- A failing slicing loop raises an ffmpeg-typed error carrying encoder
stderr text. -/
theorem runPartsAux_error (env : Env) (t : Bool) (f : String) (d : ℚ) :
    ∀ (l : List Nat) (m : Option StreamMeta) (e : SplitError),
      (runPartsAux env t f d l m).2 = .error e →
      ∃ msg c, e = .ffmpegFailed msg ∧ env.runCmd c = .error msg := by
  intro l
  induction l with
  | nil =>
    intro m e h
    cases h
  | cons i rest ih =>
    intro m e h
    simp only [runPartsAux] at h
    rcases hr : (runPart env t f (i * d) d m (partName f i)).2.2 with e1 | u
    · rw [hr] at h
      injection h with h2
      exact h2 ▸ runPart_error env t f (i * d) d m (partName f i) e1 hr
    · rw [hr] at h
      dsimp only at h
      rcases hrec : (runPartsAux env t f d rest
          (runPart env t f (i * d) d m (partName f i)).2.1).2 with e2 | outs
      · rw [hrec] at h
        injection h with h2
        exact h2 ▸ ih _ e2 hrec
      · rw [hrec] at h
        cases h

/-- A failing verification loop raises a subprocess-typed error, provided
the recursive re-split does so on existing files. -/
theorem verifyParts_error (env : Env) (budget : Nat)
    (sa : String → List Event × Option (Except SplitError (List String)))
    (hsa : ∀ g e, (∃ sg, env.getsize g = some sg) →
      (sa g).2 = some (.error e) → errFromSubprocess env e) :
    ∀ (ps : List String) (e : SplitError),
      (verifyParts sa env budget ps).2 = some (.error e) →
      errFromSubprocess env e := by
  intro ps
  induction ps with
  | nil =>
    intro e h
    simp [verifyParts] at h
  | cons q rest ih =>
    intro e h
    simp only [verifyParts] at h
    cases hq : env.getsize q with
    | none =>
      rw [hq] at h
      dsimp only at h
      exact ih e (omap_eq_some_error.mp h)
    | some psize =>
      rw [hq] at h
      dsimp only at h
      by_cases hle : psize ≤ budget
      · rw [if_pos hle] at h
        exact ih e (omap_eq_some_error.mp h)
      · rw [if_neg hle] at h
        rcases hs1 : (sa q).2 with _ | ex
        · rw [hs1] at h
          cases h
        · rcases ex with e1 | subs
          · rw [hs1] at h
            injection h with h2
            injection h2 with h3
            subst h3
            exact hsa q e1 ⟨psize, hq⟩ hs1
          · rw [hs1] at h
            dsimp only at h
            exact ih e (omap_eq_some_error.mp h)

/-- Every abort of the embedded `split_video` on an existing input file is
a subprocess-typed error carrying the prober's or encoder's stderr. -/
theorem splitFuel_error (budget : Nat) (env : Env) :
    ∀ (n : Nat) (t : Bool) (f : String) (s0 : Nat) (e : SplitError),
      env.getsize f = some s0 →
      (splitFuel n env budget t f).2 = some (.error e) →
      errFromSubprocess env e := by
  intro n
  induction n with
  | zero =>
    intro t f s0 e h0 h
    simp [splitFuel] at h
  | succ n ih =>
    intro t f s0 e h0 h
    simp only [splitFuel] at h
    rw [h0] at h
    dsimp only at h
    by_cases hle : s0 ≤ budget
    · rw [if_pos hle] at h
      simp at h
    · rw [if_neg hle] at h
      cases hd : env.duration f with
      | error msg =>
        rw [hd] at h
        injection h with h2
        injection h2 with h3
        subst h3
        exact Or.inl ⟨msg, rfl, f, hd⟩
      | ok dur =>
        rw [hd] at h
        dsimp only at h
        rcases hp : (runPartsAux env t f
            (dur / ((s0 + budget - 1) / budget : Nat))
            (List.range ((s0 + budget - 1) / budget))
            (if t then env.metadata f else none)).2 with e1 | outs
        · rw [hp] at h
          injection h with h2
          injection h2 with h3
          subst h3
          obtain ⟨msg, c, hmsg, hc⟩ := runPartsAux_error env t f _ _ _ e1 hp
          exact Or.inr ⟨msg, hmsg, c, hc⟩
        · rw [hp] at h
          dsimp only at h
          refine verifyParts_error env budget _ ?_ outs e h
          intro g e' ⟨sg, hg⟩ hh
          exact ih false g sg e' hg hh

/-- Every successful result of the embedded `split_video` consists of
parts whose (readable) sizes are within budget. -/
theorem splitFuel_ok_sizes (budget : Nat) (env : Env) :
    ∀ (n : Nat) (t : Bool) (f : String) (parts : List String),
      (splitFuel n env budget t f).2 = some (.ok parts) →
      ∀ p ∈ parts, ∀ s, env.getsize p = some s → s ≤ budget := by
  intro n
  induction n with
  | zero =>
    intro t f parts h
    simp [splitFuel] at h
  | succ n ih =>
    intro t f parts h p hp s hs
    simp only [splitFuel] at h
    cases h0 : env.getsize f with
    | none =>
      rw [h0] at h
      simp at h
    | some s0 =>
      rw [h0] at h
      dsimp only at h
      by_cases hle : s0 ≤ budget
      · rw [if_pos hle] at h
        simp at h
        subst h
        rcases List.mem_singleton.mp hp with rfl
        rw [h0] at hs
        injection hs with h2
        omega
      · rw [if_neg hle] at h
        cases hd : env.duration f with
        | error msg =>
          rw [hd] at h
          simp at h
        | ok dur =>
          rw [hd] at h
          dsimp only at h
          rcases hp2 : (runPartsAux env t f
              (dur / ((s0 + budget - 1) / budget : Nat))
              (List.range ((s0 + budget - 1) / budget))
              (if t then env.metadata f else none)).2 with e1 | outs
          · rw [hp2] at h
            simp at h
          · rw [hp2] at h
            dsimp only at h
            exact verifyParts_ok_sizes env budget _
              (fun g parts' hg => ih false g parts' hg) outs parts h p hp s hs

/-- Claim C1: for every existing input file and positive byte budget, a
terminating run of `split_video` either returns a flattened list of leaf
parts each of whose readable sizes is at most the budget (over-budget
parts having been recursively re-split), or aborts with a typed error
carrying the diagnostic stderr text of a failing prober or encoder
subprocess invocation. -/
theorem split_video_within_budget_or_typed_error
    (fuel budget : Nat) (env : Env) (t : Bool) (f : String) (s0 : Nat)
    (r : Except SplitError (List String))
    (_hpos : 0 < budget)
    (hex : env.getsize f = some s0)
    (hres : (splitFuel fuel env budget t f).2 = some r) :
    (∀ parts, r = .ok parts → ∀ p ∈ parts, ∀ s, env.getsize p = some s →
      s ≤ budget) ∧
    (∀ e, r = .error e → errFromSubprocess env e) := by
  constructor
  · intro parts hr p hp s hs
    rw [hr] at hres
    exact splitFuel_ok_sizes budget env fuel t f parts hres p hp s hs
  · intro e hr
    rw [hr] at hres
    exact splitFuel_error budget env fuel t f s0 e hex hres

/-- Witness for C1 at the 10-byte file `"a"` under budget 25. -/
theorem split_video_within_budget_or_typed_error_witness :
    (∀ parts, (Except.ok ["a"] : Except SplitError (List String)) =
        .ok parts →
      ∀ p ∈ parts, ∀ s, envS.getsize p = some s → s ≤ 25) ∧
    (∀ e, (Except.ok ["a"] : Except SplitError (List String)) = .error e →
      errFromSubprocess envS e) :=
  split_video_within_budget_or_typed_error 1 25 envS false "a" 10 (.ok ["a"])
    (by decide) (by decide) (by decide)

/-- The slicing loop's successful output is exactly the generated part
names in index order. -/
theorem runPartsAux_ok_shape (env : Env) (t : Bool) (f : String) (d : ℚ) :
    ∀ (l : List Nat) (m : Option StreamMeta) (outs : List String),
      (runPartsAux env t f d l m).2 = .ok outs →
      outs = l.map (partName f) := by
  intro l
  induction l with
  | nil =>
    intro m outs h
    injection h with h2
    simp [← h2]
  | cons i rest ih =>
    intro m outs h
    simp only [runPartsAux] at h
    rcases hr : (runPart env t f (i * d) d m (partName f i)).2.2 with e1 | u
    · rw [hr] at h
      cases h
    · rw [hr] at h
      dsimp only at h
      obtain ⟨o, ho, rfl⟩ := except_map_eq_ok.mp h
      rw [ih _ o ho]
      simp

/-- Definedness of the verification loop: if the recursive re-split is
defined on every over-budget part, the loop is defined. -/
theorem verifyParts_isSome (env : Env) (budget : Nat)
    (sa : String → List Event × Option (Except SplitError (List String))) :
    ∀ ps : List String,
      (∀ p ∈ ps, ∀ sp, env.getsize p = some sp → budget < sp →
        ((sa p).2).isSome = true) →
      ((verifyParts sa env budget ps).2).isSome = true := by
  intro ps
  induction ps with
  | nil =>
    intro h
    simp [verifyParts]
  | cons q rest ih =>
    intro h
    have hrest := ih (fun p hp => h p (List.mem_cons_of_mem _ hp))
    simp only [verifyParts]
    cases hq : env.getsize q with
    | none =>
      dsimp only
      simpa [omap_isSome] using hrest
    | some sp =>
      dsimp only
      by_cases hle : sp ≤ budget
      · rw [if_pos hle]
        simpa [omap_isSome] using hrest
      · rw [if_neg hle]
        have hsome := h q (List.mem_cons_self q rest) sp hq (not_le.mp hle)
        rcases hs : (sa q).2 with _ | ex
        · rw [hs] at hsome
          cases hsome
        · rcases ex with e | subs
          · simp [hs]
          · simp only [hs]
            simpa [omap_isSome] using hrest

/-- Claim C7 (amended): the re-split recursion of `split_video`
terminates provided every part file produced for an over-budget input is
strictly smaller than that input — then fuel exceeding the input's byte
size suffices.  (The code itself enforces no such decrease; see the
counterexample.) -/
theorem split_video_terminates_of_shrinking_parts (env : Env) (budget : Nat)
    (hdec : ∀ f s, env.getsize f = some s → budget < s →
      ∀ i s', env.getsize (partName f i) = some s' → s' < s) :
    ∀ (n : Nat) (f : String) (s : Nat) (t : Bool),
      env.getsize f = some s → s < n →
      ((splitFuel n env budget t f).2).isSome = true := by
  intro n
  induction n with
  | zero =>
    intro f s t h0 hlt
    exact absurd hlt (Nat.not_lt_zero s)
  | succ n ih =>
    intro f s t h0 hlt
    simp only [splitFuel]
    rw [h0]
    dsimp only
    by_cases hle : s ≤ budget
    · rw [if_pos hle]
      rfl
    · rw [if_neg hle]
      cases hd : env.duration f with
      | error msg => rfl
      | ok dur =>
        dsimp only
        rcases hp2 : (runPartsAux env t f
            (dur / ((s + budget - 1) / budget : Nat))
            (List.range ((s + budget - 1) / budget))
            (if t then env.metadata f else none)).2 with e1 | outs
        · rfl
        · dsimp only
          apply verifyParts_isSome
          intro p hp sp hsp hbp
          have hshape := runPartsAux_ok_shape env t f _ _ _ outs hp2
          rw [hshape] at hp
          obtain ⟨i, _, rfl⟩ := List.mem_map.mp hp
          have hdecr := hdec f s h0 (not_le.mp hle) i sp hsp
          exact ih (partName f i) sp false hsp (by omega)

/-- Under `envAdv` every slicing loop succeeds (all encoder calls are
`ok`). -/
theorem runPartsAux_envAdv_ok (f : String) (d : ℚ) :
    ∀ (l : List Nat) (m : Option StreamMeta),
      ∃ outs, (runPartsAux envAdv false f d l m).2 = .ok outs := by
  intro l
  induction l with
  | nil =>
    intro m
    exact ⟨[], rfl⟩
  | cons i rest ih =>
    intro m
    obtain ⟨outs, houts⟩ := ih m
    refine ⟨partName f i :: outs, ?_⟩
    have hrc : ∀ c, envAdv.runCmd c = .ok () := fun _ => rfl
    simp [runPartsAux, runPart, hrc, houts, Except.map]

/-- Under the adversarial environment — the re-mux never produces a part
smaller than 100 bytes — the embedded `split_video` with budget 25
exhausts any amount of fuel: the re-split recursion never bottoms out. -/
theorem splitFuel_envAdv_none : ∀ (n : Nat) (f : String),
    (splitFuel n envAdv 25 false f).2 = none := by
  intro n
  induction n with
  | zero =>
    intro f
    rfl
  | succ n ih =>
    intro f
    simp only [splitFuel]
    have hg : envAdv.getsize f = some 100 := rfl
    rw [hg]
    dsimp only
    rw [if_neg (by norm_num : ¬ (100 ≤ 25))]
    have hd : envAdv.duration f = .ok 100 := rfl
    rw [hd]
    dsimp only
    obtain ⟨outs, houts⟩ := runPartsAux_envAdv_ok f
      (100 / (((100 + 25 - 1) / 25 : Nat) : ℚ))
      (List.range ((100 + 25 - 1) / 25))
      (if false = true then envAdv.metadata f else none)
    rw [houts]
    dsimp only
    have hshape := runPartsAux_ok_shape envAdv false f _ _ _ outs houts
    have hrange : List.range ((100 + 25 - 1) / 25) = [0, 1, 2, 3] := rfl
    rw [hrange] at hshape
    rw [hshape]
    simp only [List.map]
    simp only [verifyParts]
    have hg0 : envAdv.getsize (partName f 0) = some 100 := rfl
    rw [hg0]
    dsimp only
    rw [if_neg (by norm_num : ¬ (100 ≤ 25))]
    rw [ih (partName f 0)]

/-- Claim C7 counterexample: the recursion of `split_video` does not
terminate for every input — nothing in the code makes a recursive call's
input smaller than its parent.  Under `envAdv` (a 100-byte file whose
slices all re-mux to 100 bytes, every subprocess succeeding) no amount of
fuel makes the split of `"v.mp4"` at budget 25 return. -/
theorem split_video_may_not_terminate :
    ¬ ∃ n, ((splitFuel n envAdv 25 false "v.mp4").2).isSome = true := by
  rintro ⟨n, hn⟩
  rw [splitFuel_envAdv_none n "v.mp4"] at hn
  cases hn

/-- Witness for C7 (amended) at the environment `envS`, where the
shrinking hypothesis holds vacuously. -/
theorem split_video_terminates_of_shrinking_parts_witness :
    ((splitFuel 11 envS 25 false "a").2).isSome = true :=
  split_video_terminates_of_shrinking_parts envS 25
    (by
      intro f s hf hbs i s' hp
      by_cases hfa : f = "a"
      · rw [hfa] at hf
        simp [envS] at hf
        omega
      · simp [envS, hfa] at hf)
    11 "a" 10 false (by decide) (by decide)

/-- Claim C6 (code slip): when the copy slice of part 1 fails under
`transcode=false`, `split_video` *does* read the stream metadata via the
prober (the `probeMeta` event appears, and the prober returns `metaC6`
with SAR 4:3, DAR 16:9, rotate 90), but then reruns the *previously
built* `cmd_transcode` — the executed re-encode carries the default scale
filter and no `-aspect`/`rotate` values, unlike the command that
rebuilding from the fetched metadata would have produced (last
conjunct). -/
theorem split_video_fallback_drops_metadata :
    (splitFuel 2 envC6 60 false "v.mp4").2 =
      some (.ok ["v_part1.mp4", "v_part2.mp4"]) ∧
    envC6.metadata "v.mp4" = some metaC6 ∧
    (splitFuel 2 envC6 60 false "v.mp4").1 =
      [.probeDuration "v.mp4",
       .runCmd (.copy "v.mp4" 0 50 "v_part1.mp4"),
       .probeMeta "v.mp4",
       .runCmd (.transcode "v.mp4" 0 50 defaultScaleFilter none none
         "v_part1.mp4"),
       .runCmd (.copy "v.mp4" 50 50 "v_part2.mp4")] ∧
    cmdTranscode "v.mp4" 0 50 (some metaC6) "v_part1.mp4" =
      .transcode "v.mp4" 0 50 sarScaleFilter (some "16:9") (some "90")
        "v_part1.mp4" := by
  refine ⟨rfl, rfl, ?_, rfl⟩
  norm_num [splitFuel, runPartsAux, runPart, verifyParts, Except.map, omap,
    (show partName "v.mp4" 0 = "v_part1.mp4" from rfl),
    (show partName "v.mp4" 1 = "v_part2.mp4" from rfl),
    (show envC6.getsize "v.mp4" = some 100 from rfl),
    (show envC6.getsize "v_part1.mp4" = some 50 from rfl),
    (show envC6.getsize "v_part2.mp4" = some 50 from rfl),
    (show envC6.duration "v.mp4" = .ok 100 from rfl),
    (show envC6.metadata "v.mp4" = some metaC6 from rfl),
    (show ∀ st du, envC6.runCmd (.copy "v.mp4" st du "v_part1.mp4") =
      .error "Conversion failed!" from fun _ _ => rfl),
    (show ∀ st du, envC6.runCmd (.copy "v.mp4" st du "v_part2.mp4") =
      .ok () from fun _ _ => rfl),
    (show ∀ a b c d e g h, envC6.runCmd (.transcode a b c d e g h) =
      .ok () from fun _ _ _ _ _ _ _ => rfl),
    (show ∀ st du, cmdTranscode "v.mp4" st du none "v_part1.mp4" =
      .transcode "v.mp4" st du defaultScaleFilter none none "v_part1.mp4"
      from fun _ _ => rfl),
    (show List.range 2 = [0, 1] from rfl)]
